import Mathlib

/-!
Shallow embedding of the provider abstraction / fallback-retry layer of the
`technical-questions-app` repository (`app/api/utils.ts` and the
`extractJSONArray` helper of `app/api/generate-mcq/route.ts`).

JavaScript strings are modelled as Lean `String` (lists of characters via
`String.data`); JS `indexOf` / `lastIndexOf` return `Int` with `-1` for
"not found", exactly as in JS.  The two AI SDK network calls are modelled
by an oracle `AIProvider → String → Except String String` passed in as a
parameter: `Except.error e` models the underlying call throwing the error
message `e`, `Except.ok t` models it resolving with text `t`.
-/

/-- `export type AIProvider = 'mistral' | 'gemini';` (utils.ts line 4) -/
inductive AIProvider where
  | mistral
  | gemini
deriving DecidableEq, Repr

/-- `export interface ProviderConfig` (utils.ts lines 6-10). -/
structure ProviderConfig where
  apiKey : String
  provider : AIProvider
  model : String
deriving DecidableEq, Repr

/-- `AVAILABLE_MODELS` (utils.ts lines 13-16): the per-provider fallback
catalog, in fallback order. -/
def AVAILABLE_MODELS : AIProvider → List String
  | .gemini => ["gemini-2.5-flash", "gemini-1.5-flash", "gemini-1.5-pro"]
  | .mistral => ["mistral-large-latest", "mistral-medium-latest", "mistral-small-latest"]

/-- JS `Array.prototype.indexOf` / `String.prototype.indexOf` restricted to a
single needle: first index of `x` in the list, `-1` if absent. -/
def jsIndexOf {α : Type} [DecidableEq α] : List α → α → Int
  | [], _ => -1
  | a :: r, x =>
    if a = x then 0
    else
      let i := jsIndexOf r x
      if i = -1 then -1 else i + 1

/-- JS `lastIndexOf`: last index of `x`, `-1` if absent (computed by scanning
the reverse). -/
def jsLastIndexOf {α : Type} [DecidableEq α] (l : List α) (x : α) : Int :=
  let j := jsIndexOf l.reverse x
  if j = -1 then -1 else (l.length : Int) - 1 - j

/-- `getNextFallbackModel` (utils.ts lines 19-36): next model of the same
provider's catalog, `none` when the current model is absent from the catalog
(`indexOf` gives `-1`) or is its last entry. -/
def getNextFallbackModel (provider : AIProvider) (currentModel : String) :
    Option (AIProvider × String) :=
  let models := AVAILABLE_MODELS provider
  let currentIndex := jsIndexOf models currentModel
  if 0 ≤ currentIndex ∧ currentIndex < (models.length : Int) - 1 then
    some (provider, models.getD (currentIndex + 1).toNat "")
  else
    none

/-- Observable outcome of one run of the fallback executor: the value
returned / error thrown, the list of `(provider, model)` pairs attempted in
order, and how many 1-second backoff delays were awaited. -/
structure RunResult where
  result : Except String String
  trace : List (AIProvider × String)
  delays : Nat
deriving Repr

/-- The `while (attemptCount < maxAttempts)` loop of
`callAIProviderWithFallback` (utils.ts lines 48-86), with
`fuel = maxAttempts - attemptCount` (so the loop guard `attemptCount <
maxAttempts` is `fuel ≠ 0`, and the post-increment guard
`attemptCount >= maxAttempts` inside the catch is `fuel - 1 = 0`).
`oracle` stands for `callAIProvider`.  The `fuel = 0` base case is the
`throw new Error(...)` after the loop (utils.ts line 88). -/
def fallbackLoop (oracle : AIProvider → String → Except String String) :
    AIProvider → String → Nat → RunResult
  | _, _, 0 => ⟨.error "Failed to get response from provider models", [], 0⟩
  | p, model, fuel + 1 =>
    match oracle p model with
    | .ok r => ⟨.ok r, [(p, model)], 0⟩
    | .error e =>
      if fuel = 0 then
        -- `attemptCount >= maxAttempts`: all attempts exhausted, rethrow
        ⟨.error e, [(p, model)], 0⟩
      else
        match getNextFallbackModel p model with
        | none => ⟨.error e, [(p, model)], 0⟩
        | some (p2, m2) =>
          -- 1-second delay, then retry with the fallback config
          let rest := fallbackLoop oracle p2 m2 fuel
          ⟨rest.result, (p, model) :: rest.trace, rest.delays + 1⟩

/-- `callAIProviderWithFallback` (utils.ts lines 38-89):
`maxAttempts = AVAILABLE_MODELS[initialConfig.provider].length`. -/
def callAIProviderWithFallback (oracle : AIProvider → String → Except String String)
    (initialConfig : ProviderConfig) : RunResult :=
  fallbackLoop oracle initialConfig.provider initialConfig.model
    (AVAILABLE_MODELS initialConfig.provider).length

/-- JS `String.prototype.toLowerCase` (ASCII-faithful). -/
def jsToLower (s : String) : String :=
  String.mk (s.data.map Char.toLower)

/-- Does `pat` start the list `s`? (helper for JS `includes`). -/
def startsWithList : List Char → List Char → Bool
  | _, [] => true
  | [], _ :: _ => false
  | a :: s, b :: p => a == b && startsWithList s p

/-- JS `String.prototype.includes`: substring containment. -/
def listContains : List Char → List Char → Bool
  | [], pat => startsWithList [] pat
  | a :: s, pat => startsWithList (a :: s) pat || listContains s pat

/-- JS `s.includes(pat)` on Lean strings. -/
def jsIncludes (s pat : String) : Bool :=
  listContains s.data pat.data

/-- `getProviderFromModel` (utils.ts lines 219-229). -/
def getProviderFromModel (modelSelection : String) : Option AIProvider :=
  let lower := jsToLower modelSelection
  if jsIncludes lower "mistral" then some .mistral
  else if jsIncludes lower "gemini" || jsIncludes lower "google" then some .gemini
  else none

/-- `getModelFromSelection` (utils.ts lines 231-243). -/
def getModelFromSelection (modelSelection : String) : String :=
  let lower := jsToLower modelSelection
  if jsIncludes lower "mistral-small" then "mistral-small-latest"
  else if jsIncludes lower "mistral-medium" then "mistral-medium-latest"
  else if jsIncludes lower "mistral-large" then "mistral-large-latest"
  else if jsIncludes lower "mistral" then "mistral-small-latest"
  else if jsIncludes lower "gemini" then "gemini-2.5-flash"
  else if jsIncludes lower "google" then "gemini-2.5-flash"
  else modelSelection

/-- The whitespace class trimmed by JS `String.prototype.trim` (ASCII part). -/
def isWsChar (c : Char) : Bool :=
  c = ' ' || c = '\t' || c = '\n' || c = '\r' || c = '\x0b' || c = '\x0c'

/-- JS `String.prototype.trim` on character lists. -/
def jsTrimList (s : List Char) : List Char :=
  ((s.dropWhile isWsChar).reverse.dropWhile isWsChar).reverse

/-- The spec-side notion "the string contains `pat` in any letter case":
some contiguous segment of `s` lowercases to `pat`. -/
def occursAnyCase (s pat : String) : Prop :=
  ∃ u t v, s.data = u ++ t ++ v ∧ t.map Char.toLower = pat.data

/-- Modelled from the spec: the ordered substring-rule table of
`resolveModel` ("maps loose free-text selections to canonical model
identifiers via ordered substring checks"). -/
def modelRules : List (String × String) :=
  [("mistral-small", "mistral-small-latest"),
   ("mistral-medium", "mistral-medium-latest"),
   ("mistral-large", "mistral-large-latest"),
   ("mistral", "mistral-small-latest"),
   ("gemini", "gemini-2.5-flash"),
   ("google", "gemini-2.5-flash")]

/-- Modelled from the spec: `resolveModel` as "first matching rule wins,
otherwise pass the input through unchanged". -/
def resolveModelSpec (s : String) : String :=
  match modelRules.find? (fun r => jsIncludes (jsToLower s) r.1) with
  | some r => r.2
  | none => s

/-- The message thrown for `finishReason === 'MAX_TOKENS'` (utils.ts 154). -/
def maxTokensMsg : String :=
  "Response exceeded max tokens. The prompt or expected output is too large. Try reducing complexity."

/-- The message thrown for `finishReason === 'SAFETY'` (utils.ts 159). -/
def safetyMsg : String :=
  "Response blocked by safety filter. Try rephrasing your prompt."

/-- The message thrown for any other empty response (utils.ts 162). -/
def emptyMsg : String := "Empty response from Gemini API"

/-- The JS condition `!text || text.trim().length === 0` (utils.ts 144). -/
def jsBlank : Option String → Bool
  | none => true
  | some t => (jsTrimList t.data).isEmpty

/-- The empty-response handling of the Gemini branch of `callAIProvider`
(utils.ts lines 144-165): `text` is the extracted candidate text (`none`
models JS `null`), `finishReason` is `candidates[0].finishReason`. -/
def geminiEmptyCheck (text finishReason : Option String) : Except String String :=
  if jsBlank text then
    if finishReason == some "MAX_TOKENS" then Except.error maxTokensMsg
    else if finishReason == some "SAFETY" then Except.error safetyMsg
    else Except.error emptyMsg
  else Except.ok (text.getD "")

/-! ### A JSON value type and a model of `JSON.parse`

`JSON.parse` converts number tokens to IEEE doubles; since every claim only
compares parses of identical character spans, numbers keep their lexeme
verbatim here, which avoids floating point while preserving equality of
parses of equal spans. -/

inductive Json where
  | null
  | bool (b : Bool)
  | num (lexeme : String)
  | str (s : String)
  | arr (items : List Json)
  | obj (fields : List (String × Json))

/-- JSON grammar whitespace. -/
def isJsonWs (c : Char) : Bool :=
  c = ' ' || c = '\t' || c = '\n' || c = '\r'

def skipWs (s : List Char) : List Char :=
  s.dropWhile isJsonWs

/-- Single-character JSON string escapes. -/
def escChar (c : Char) : Option Char :=
  if c = '"' then some '"'
  else if c = '\\' then some '\\'
  else if c = '/' then some '/'
  else if c = 'b' then some '\x08'
  else if c = 'f' then some '\x0c'
  else if c = 'n' then some '\n'
  else if c = 'r' then some '\r'
  else if c = 't' then some '\t'
  else none

def hexVal (c : Char) : Option Nat :=
  if '0' ≤ c ∧ c ≤ '9' then some (c.toNat - '0'.toNat)
  else if 'a' ≤ c ∧ c ≤ 'f' then some (c.toNat - 'a'.toNat + 10)
  else if 'A' ≤ c ∧ c ≤ 'F' then some (c.toNat - 'A'.toNat + 10)
  else none

/-- JSON string body (after the opening quote), accumulator-style. -/
def parseStringBody : List Char → List Char → Option (String × List Char)
  | _, [] => none
  | acc, c :: rest =>
    if c = '"' then some (String.mk acc.reverse, rest)
    else if c = '\\' then
      match rest with
      | [] => none
      | e :: rest2 =>
        if e = 'u' then
          match rest2 with
          | h1 :: h2 :: h3 :: h4 :: rest3 =>
            match hexVal h1, hexVal h2, hexVal h3, hexVal h4 with
            | some v1, some v2, some v3, some v4 =>
              parseStringBody (Char.ofNat (((v1 * 16 + v2) * 16 + v3) * 16 + v4) :: acc) rest3
            | _, _, _, _ => none
          | _ => none
        else
          match escChar e with
          | some d => parseStringBody (d :: acc) rest2
          | none => none
    else if c.toNat < 32 then none
    else parseStringBody (c :: acc) rest

/-- Exponent part of a JSON number (and finishing the token). -/
def parseExpPart (acc : List Char) (s : List Char) : Option (Json × List Char) :=
  match s with
  | e :: r =>
    if e = 'e' ∨ e = 'E' then
      let sg_r1 : List Char × List Char :=
        match r with
        | '+' :: rr => (['+'], rr)
        | '-' :: rr => (['-'], rr)
        | _ => ([], r)
      match sg_r1.2.span (fun c => c.isDigit) with
      | ([], _) => none
      | (ds, r2) => some (Json.num (String.mk (acc ++ e :: (sg_r1.1 ++ ds))), r2)
    else some (Json.num (String.mk acc), s)
  | [] => some (Json.num (String.mk acc), [])

/-- Optional fraction, then optional exponent, of a JSON number. -/
def parseFracThenExp (acc : List Char) (s : List Char) : Option (Json × List Char) :=
  match s with
  | '.' :: r =>
    match r.span (fun c => c.isDigit) with
    | ([], _) => none
    | (ds, r2) => parseExpPart (acc ++ '.' :: ds) r2
  | _ => parseExpPart acc s

/-- A JSON number token (with the no-leading-zero rule). -/
def parseNumber (s : List Char) : Option (Json × List Char) :=
  let sign_s1 : List Char × List Char :=
    match s with
    | '-' :: r => (['-'], r)
    | _ => ([], s)
  match sign_s1.2 with
  | [] => none
  | '0' :: r2 => parseFracThenExp (sign_s1.1 ++ ['0']) r2
  | c :: r2 =>
    if c.isDigit then
      let ds_r3 := r2.span (fun d => d.isDigit)
      parseFracThenExp (sign_s1.1 ++ c :: ds_r3.1) ds_r3.2
    else none

mutual

/-- Recursive-descent JSON value parser; `fuel` bounds the recursion depth
(any fuel of at least `2 * input length + 2` behaves identically). -/
def parseValue : Nat → List Char → Option (Json × List Char)
  | 0, _ => none
  | fuel + 1, s =>
    match skipWs s with
    | [] => none
    | c :: rest =>
      if c = '[' then
        match skipWs rest with
        | ']' :: rest2 => some (Json.arr [], rest2)
        | rest2 =>
          match parseItems fuel rest2 with
          | some (items, rest3) => some (Json.arr items, rest3)
          | none => none
      else if c = '\x7b' then
        match skipWs rest with
        | '\x7d' :: rest2 => some (Json.obj [], rest2)
        | rest2 =>
          match parseMembers fuel rest2 with
          | some (ms, rest3) => some (Json.obj ms, rest3)
          | none => none
      else if c = '"' then
        match parseStringBody [] rest with
        | some (str, rest2) => some (Json.str str, rest2)
        | none => none
      else if c = 't' then
        match rest with
        | 'r' :: 'u' :: 'e' :: rest2 => some (Json.bool true, rest2)
        | _ => none
      else if c = 'f' then
        match rest with
        | 'a' :: 'l' :: 's' :: 'e' :: rest2 => some (Json.bool false, rest2)
        | _ => none
      else if c = 'n' then
        match rest with
        | 'u' :: 'l' :: 'l' :: rest2 => some (Json.null, rest2)
        | _ => none
      else if c = '-' ∨ c.isDigit then
        parseNumber (c :: rest)
      else none

/-- Comma-separated array items up to the closing bracket. -/
def parseItems : Nat → List Char → Option (List Json × List Char)
  | 0, _ => none
  | fuel + 1, s =>
    match parseValue fuel s with
    | none => none
    | some (v, rest) =>
      match skipWs rest with
      | ',' :: rest2 =>
        match parseItems fuel rest2 with
        | some (vs, rest3) => some (v :: vs, rest3)
        | none => none
      | ']' :: rest2 => some ([v], rest2)
      | _ => none

/-- Comma-separated object members up to the closing brace. -/
def parseMembers : Nat → List Char → Option (List (String × Json) × List Char)
  | 0, _ => none
  | fuel + 1, s =>
    match skipWs s with
    | '"' :: rest =>
      match parseStringBody [] rest with
      | none => none
      | some (key, rest1) =>
        match skipWs rest1 with
        | ':' :: rest2 =>
          match parseValue fuel rest2 with
          | none => none
          | some (v, rest3) =>
            match skipWs rest3 with
            | ',' :: rest4 =>
              match parseMembers fuel rest4 with
              | some (ms, rest5) => some ((key, v) :: ms, rest5)
              | none => none
            | '\x7d' :: rest4 => some ([(key, v)], rest4)
            | _ => none
        | _ => none
    | _ => none

end

/-- `JSON.parse`: parse one value, allow trailing whitespace only. -/
def jsonParse (s : String) : Option Json :=
  match parseValue (2 * s.data.length + 2) s.data with
  | some (v, rest) => if (skipWs rest).isEmpty then some v else none
  | none => none

/-- JS `s.substring(a, b)` (for `a ≤ b`, both in range) on character lists. -/
def jsSubstringList (s : List Char) (a b : Nat) : List Char :=
  (s.take b).drop a

/-- `extractJSONArray` (generate-mcq/route.ts lines 37-61, and identically in
`src/unnamed/part_002` lines 15-38): trim, take the span from the first `[`
to the last `]` and parse it; with no such span, take the span from the
first `\x7b` to the last `\x7d`, parse it and wrap the result in a
one-element array; otherwise report that no JSON was found. -/
def extractJSONArray (raw : String) : Except String Json :=
  let s := jsTrimList raw.data
  let firstBracket := jsIndexOf s '['
  let lastBracket := jsLastIndexOf s ']'
  if firstBracket = -1 ∨ lastBracket = -1 ∨ lastBracket < firstBracket then
    let firstBrace := jsIndexOf s '\x7b'
    let lastBrace := jsLastIndexOf s '\x7d'
    if firstBrace ≠ -1 ∧ lastBrace ≠ -1 ∧ lastBrace > firstBrace then
      match jsonParse (String.mk (jsSubstringList s firstBrace.toNat (lastBrace.toNat + 1))) with
      | some v => Except.ok (Json.arr [v])
      | none => Except.error "Failed to parse JSON object from response"
    else Except.error "Invalid response format: No JSON array or object found"
  else
    match jsonParse (String.mk (jsSubstringList s firstBracket.toNat (lastBracket.toNat + 1))) with
    | some v => Except.ok v
    | none => Except.error "Failed to parse JSON array from response"

/-! ### Basic facts about `jsIndexOf` -/

lemma jsIndexOf_ge_neg_one {α : Type} [DecidableEq α] (l : List α) (x : α) :
    -1 ≤ jsIndexOf l x := by
  induction l with
  | nil => simp [jsIndexOf]
  | cons a r ih =>
    by_cases hax : a = x
    · simp [jsIndexOf, hax]
    · by_cases hi : jsIndexOf r x = -1
      · simp [jsIndexOf, hax, hi]
      · simp [jsIndexOf, hax, hi]
        omega

lemma jsIndexOf_eq_neg_one_iff {α : Type} [DecidableEq α] (l : List α) (x : α) :
    jsIndexOf l x = -1 ↔ x ∉ l := by
  induction l with
  | nil => simp [jsIndexOf]
  | cons a r ih =>
    by_cases hax : a = x
    · subst hax
      simp [jsIndexOf]
    · by_cases hi : jsIndexOf r x = -1
      · simp [jsIndexOf, hax, hi, ih.mp hi, Ne.symm hax]
      · have h1 := jsIndexOf_ge_neg_one r x
        have hx : x ∈ r := by
          by_contra hc
          exact hi (ih.mpr hc)
        simp only [jsIndexOf, if_neg hax, if_neg hi]
        constructor
        · intro h; omega
        · intro h
          exact absurd (List.mem_cons_of_mem a hx) h

lemma jsIndexOf_nonneg_of_mem {α : Type} [DecidableEq α] {l : List α} {x : α}
    (h : x ∈ l) : 0 ≤ jsIndexOf l x := by
  have h1 := jsIndexOf_ge_neg_one l x
  have h2 : jsIndexOf l x ≠ -1 := fun hc => (jsIndexOf_eq_neg_one_iff l x).mp hc h
  omega

lemma jsIndexOf_lt_length {α : Type} [DecidableEq α] (l : List α) (x : α) :
    jsIndexOf l x < (l.length : Int) := by
  induction l with
  | nil => simp [jsIndexOf]
  | cons a r ih =>
    by_cases hax : a = x
    · simp only [jsIndexOf, if_pos hax, List.length_cons]
      push_cast
      omega
    · by_cases hi : jsIndexOf r x = -1
      · simp only [jsIndexOf, if_neg hax, if_pos hi, List.length_cons]
        push_cast
        omega
      · simp only [jsIndexOf, if_neg hax, if_neg hi, List.length_cons]
        push_cast
        omega

lemma jsIndexOf_getD_self (l : List String) (hnd : l.Nodup) :
    ∀ i : Nat, i < l.length → jsIndexOf l (l.getD i "") = i := by
  induction l with
  | nil => intro i hi; simp at hi
  | cons a r ih =>
    intro i hi
    cases i with
    | zero => simp [jsIndexOf]
    | succ j =>
      have hj : j < r.length := by simpa using hi
      have hmem : r.getD j "" ∈ r := by
        rw [List.getD_eq_getElem r "" hj]
        exact List.getElem_mem hj
      have hne : a ≠ r.getD j "" := by
        intro hc
        exact (List.nodup_cons.mp hnd).1 (hc ▸ hmem)
      have hrec := ih (List.nodup_cons.mp hnd).2 j hj
      have hj1 : jsIndexOf r (r.getD j "") ≠ -1 := by
        rw [hrec]; omega
      simp only [List.getD_cons_succ, jsIndexOf, if_neg hne, if_neg hj1, hrec]
      push_cast
      ring

lemma getD_jsIndexOf {l : List String} {x : String} (h : x ∈ l) :
    l.getD (jsIndexOf l x).toNat "" = x := by
  induction l with
  | nil => simp at h
  | cons a r ih =>
    by_cases hax : a = x
    · subst hax; simp [jsIndexOf]
    · have hx : x ∈ r := by
        rcases List.mem_cons.mp h with h1 | h1
        · exact absurd h1.symm hax
        · exact h1
      have hge := jsIndexOf_nonneg_of_mem hx
      have hne : jsIndexOf r x ≠ -1 := by omega
      have htn : (jsIndexOf r x + 1).toNat = (jsIndexOf r x).toNat + 1 := by omega
      simp only [jsIndexOf, if_neg hax, if_neg hne, htn, List.getD_cons_succ]
      exact ih hx

/-- If `getNextFallbackModel` produces a fallback, the provider is unchanged,
the current model occurs in the catalog, and the fallback model's catalog
index is exactly one more than the current one. -/
lemma getNextFallbackModel_eq {p : AIProvider} {m : String} {p2 : AIProvider} {m2 : String}
    (h : getNextFallbackModel p m = some (p2, m2)) :
    p2 = p ∧ 0 ≤ jsIndexOf (AVAILABLE_MODELS p) m ∧
      jsIndexOf (AVAILABLE_MODELS p) m2 = jsIndexOf (AVAILABLE_MODELS p) m + 1 := by
  simp only [getNextFallbackModel] at h
  split at h
  · rename_i hcond
    obtain ⟨h0, hlt⟩ := hcond
    injection h with h'
    injection h' with hp hm
    refine ⟨hp.symm, h0, ?_⟩
    subst hm
    have hnd : (AVAILABLE_MODELS p).Nodup := by cases p <;> decide
    have hlen : (jsIndexOf (AVAILABLE_MODELS p) m + 1).toNat < (AVAILABLE_MODELS p).length := by
      omega
    rw [jsIndexOf_getD_self _ hnd _ hlen]
    omega
  · exact absurd h (by simp)

lemma getNextFallbackModel_none_of_not_mem {p : AIProvider} {m : String}
    (h : m ∉ AVAILABLE_MODELS p) : getNextFallbackModel p m = none := by
  have hm1 := (jsIndexOf_eq_neg_one_iff (AVAILABLE_MODELS p) m).mpr h
  simp only [getNextFallbackModel]
  rw [if_neg]
  omega

/-! ### Stepping lemmas for the fallback loop -/

lemma fallbackLoop_ok {oracle : AIProvider → String → Except String String}
    {p : AIProvider} {m r : String} {fuel : Nat} (hf : fuel ≠ 0)
    (ho : oracle p m = Except.ok r) :
    fallbackLoop oracle p m fuel = ⟨Except.ok r, [(p, m)], 0⟩ := by
  cases fuel with
  | zero => contradiction
  | succ n => simp [fallbackLoop, ho]

lemma fallbackLoop_error_last {oracle : AIProvider → String → Except String String}
    {p : AIProvider} {m e : String} (ho : oracle p m = Except.error e) :
    fallbackLoop oracle p m 1 = ⟨Except.error e, [(p, m)], 0⟩ := by
  simp [fallbackLoop, ho]

lemma fallbackLoop_error_nofb {oracle : AIProvider → String → Except String String}
    {p : AIProvider} {m e : String} {fuel : Nat} (hf : fuel ≠ 0)
    (ho : oracle p m = Except.error e) (hn : getNextFallbackModel p m = none) :
    fallbackLoop oracle p m fuel = ⟨Except.error e, [(p, m)], 0⟩ := by
  cases fuel with
  | zero => contradiction
  | succ n =>
    by_cases hz : n = 0 <;> simp [fallbackLoop, ho, hn, hz]

lemma fallbackLoop_error_step {oracle : AIProvider → String → Except String String}
    {p : AIProvider} {m e : String} {p2 : AIProvider} {m2 : String} {fuel : Nat}
    (ho : oracle p m = Except.error e)
    (hn : getNextFallbackModel p m = some (p2, m2)) (hz : fuel ≠ 0) :
    fallbackLoop oracle p m (fuel + 1) =
      ⟨(fallbackLoop oracle p2 m2 fuel).result,
        (p, m) :: (fallbackLoop oracle p2 m2 fuel).trace,
        (fallbackLoop oracle p2 m2 fuel).delays + 1⟩ := by
  simp [fallbackLoop, ho, hn, hz]

/-! ### The fallback trace invariant -/

lemma fallbackLoop_invariant (oracle : AIProvider → String → Except String String)
    (p : AIProvider) :
    ∀ (fuel : Nat) (m : String),
      (∀ x ∈ (fallbackLoop oracle p m fuel).trace,
          x.1 = p ∧ jsIndexOf (AVAILABLE_MODELS p) m ≤ jsIndexOf (AVAILABLE_MODELS p) x.2) ∧
      (fallbackLoop oracle p m fuel).trace.Pairwise
          (fun x y => jsIndexOf (AVAILABLE_MODELS p) x.2 < jsIndexOf (AVAILABLE_MODELS p) y.2) ∧
      (fallbackLoop oracle p m fuel).trace.length ≤ fuel := by
  intro fuel
  induction fuel with
  | zero => intro m; simp [fallbackLoop]
  | succ fuel ih =>
    intro m
    cases ho : oracle p m with
    | ok r =>
      rw [fallbackLoop_ok (Nat.succ_ne_zero fuel) ho]
      refine ⟨?_, by simp, by simp⟩
      intro x hx
      simp only [List.mem_singleton] at hx
      subst hx
      exact ⟨rfl, le_refl _⟩
    | error e =>
      by_cases hz : fuel = 0
      · subst hz
        rw [fallbackLoop_error_last ho]
        refine ⟨?_, by simp, by simp⟩
        intro x hx
        simp only [List.mem_singleton] at hx
        subst hx
        exact ⟨rfl, le_refl _⟩
      · cases hnf : getNextFallbackModel p m with
        | none =>
          rw [fallbackLoop_error_nofb (Nat.succ_ne_zero fuel) ho hnf]
          refine ⟨?_, by simp, by simp⟩
          intro x hx
          simp only [List.mem_singleton] at hx
          subst hx
          exact ⟨rfl, le_refl _⟩
        | some pm =>
          obtain ⟨p2, m2⟩ := pm
          obtain ⟨hp2, h0, hidx⟩ := getNextFallbackModel_eq hnf
          subst hp2
          rw [fallbackLoop_error_step ho hnf hz]
          obtain ⟨ihA, ihP, ihL⟩ := ih m2
          refine ⟨?_, ?_, ?_⟩
          · intro x hx
            rcases List.mem_cons.mp hx with h1 | h1
            · subst h1
              exact ⟨rfl, le_refl _⟩
            · obtain ⟨hx1, hx2⟩ := ihA x h1
              exact ⟨hx1, by omega⟩
          · refine List.pairwise_cons.mpr ⟨?_, ihP⟩
            intro y hy
            have h2 := (ihA y hy).2
            dsimp only
            omega
          · simp only [List.length_cons]
            omega

/-- C2: in every execution of `callAIProviderWithFallback`, every attempted
`(provider, model)` pair keeps the provider of the initial config, the
catalog indices of the attempted models are strictly increasing (so no model
is repeated), and the number of attempts never exceeds the catalog length of
the initial provider. -/
theorem fallback_trace_invariant (oracle : AIProvider → String → Except String String)
    (cfg : ProviderConfig) :
    (∀ x ∈ (callAIProviderWithFallback oracle cfg).trace, x.1 = cfg.provider) ∧
    (callAIProviderWithFallback oracle cfg).trace.Pairwise
        (fun x y => jsIndexOf (AVAILABLE_MODELS cfg.provider) x.2
            < jsIndexOf (AVAILABLE_MODELS cfg.provider) y.2) ∧
    (callAIProviderWithFallback oracle cfg).trace.length
        ≤ (AVAILABLE_MODELS cfg.provider).length := by
  obtain ⟨hA, hP, hL⟩ :=
    fallbackLoop_invariant oracle cfg.provider (AVAILABLE_MODELS cfg.provider).length cfg.model
  exact ⟨fun x hx => (hA x hx).1, hP, hL⟩

/-- C6: a successful first call attempt short-circuits: the executor returns
that result with exactly one attempt and no backoff delay. -/
theorem fallback_first_success_short_circuits
    (oracle : AIProvider → String → Except String String) (cfg : ProviderConfig) (r : String)
    (h : oracle cfg.provider cfg.model = Except.ok r) :
    callAIProviderWithFallback oracle cfg =
      ⟨Except.ok r, [(cfg.provider, cfg.model)], 0⟩ := by
  have hlen : (AVAILABLE_MODELS cfg.provider).length ≠ 0 := by
    cases cfg.provider <;> decide
  exact fallbackLoop_ok hlen h

theorem fallback_first_success_short_circuits_witness :
    (fun (_ : AIProvider) (_ : String) => (Except.ok "text" : Except String String))
        AIProvider.gemini "gemini-2.5-flash" = Except.ok "text" ∧
    callAIProviderWithFallback (fun _ _ => Except.ok "text")
        ⟨"key", .gemini, "gemini-2.5-flash"⟩ =
      ⟨Except.ok "text", [(.gemini, "gemini-2.5-flash")], 0⟩ :=
  ⟨rfl, fallback_first_success_short_circuits _ _ _ rfl⟩

/-- C9: when the initial model is absent from the provider's catalog, a
failing first attempt gets no fallback (`indexOf` is `-1`): exactly one
attempt, the first error propagates, and no backoff delay occurs. -/
theorem fallback_unknown_model_single_attempt
    (oracle : AIProvider → String → Except String String) (cfg : ProviderConfig) (e : String)
    (hm : cfg.model ∉ AVAILABLE_MODELS cfg.provider)
    (he : oracle cfg.provider cfg.model = Except.error e) :
    callAIProviderWithFallback oracle cfg =
      ⟨Except.error e, [(cfg.provider, cfg.model)], 0⟩ := by
  have hlen : (AVAILABLE_MODELS cfg.provider).length ≠ 0 := by
    cases cfg.provider <;> decide
  exact fallbackLoop_error_nofb hlen he (getNextFallbackModel_none_of_not_mem hm)

theorem fallback_unknown_model_single_attempt_witness :
    "gpt-4" ∉ AVAILABLE_MODELS AIProvider.gemini ∧
    callAIProviderWithFallback (fun _ _ => Except.error "boom") ⟨"key", .gemini, "gpt-4"⟩ =
      ⟨Except.error "boom", [(.gemini, "gpt-4")], 0⟩ :=
  ⟨by decide, fallback_unknown_model_single_attempt _ _ _ (by decide) rfl⟩

/-- C1 (counterexample): an oracle that fails on every call, started from the
last catalog model, yields one attempt — not the catalog length — so the
claim does not hold for arbitrary initial configs. -/
theorem fallback_midCatalog_start_not_full_length :
    (callAIProviderWithFallback (fun _ _ => Except.error "boom")
        ⟨"key", .gemini, "gemini-1.5-pro"⟩).trace.length = 1 ∧
    (AVAILABLE_MODELS AIProvider.gemini).length = 3 ∧
    (callAIProviderWithFallback (fun _ _ => Except.error "boom")
        ⟨"key", .gemini, "gemini-1.5-pro"⟩).trace.length ≠
      (AVAILABLE_MODELS AIProvider.gemini).length := by
  refine ⟨rfl, rfl, by decide⟩

/-- C1 (amended): when every model of the provider's catalog fails and the
initial config starts at the FIRST catalog model, the executor makes exactly
`catalog.length` attempts and propagates the error of the last catalog
model. -/
theorem fallback_allFail_from_head_exhausts_catalog
    (oracle : AIProvider → String → Except String String) (p : AIProvider) (key : String)
    (hfail : ∀ m ∈ AVAILABLE_MODELS p, ∃ e, oracle p m = Except.error e) :
    (callAIProviderWithFallback oracle ⟨key, p, (AVAILABLE_MODELS p).headD ""⟩).trace.length
        = (AVAILABLE_MODELS p).length ∧
    (callAIProviderWithFallback oracle ⟨key, p, (AVAILABLE_MODELS p).headD ""⟩).result
        = oracle p ((AVAILABLE_MODELS p).getLastD "") := by
  cases p with
  | mistral =>
    obtain ⟨e0, h0⟩ := hfail "mistral-large-latest" (by decide)
    obtain ⟨e1, h1⟩ := hfail "mistral-medium-latest" (by decide)
    obtain ⟨e2, h2⟩ := hfail "mistral-small-latest" (by decide)
    have s1 : getNextFallbackModel .mistral "mistral-large-latest"
        = some (.mistral, "mistral-medium-latest") := by decide
    have s2 : getNextFallbackModel .mistral "mistral-medium-latest"
        = some (.mistral, "mistral-small-latest") := by decide
    have L1 := fallbackLoop_error_last h2
    have L2 : fallbackLoop oracle .mistral "mistral-medium-latest" 2 =
        ⟨Except.error e2,
          [(.mistral, "mistral-medium-latest"), (.mistral, "mistral-small-latest")], 1⟩ := by
      rw [show (2 : Nat) = 1 + 1 from rfl, fallbackLoop_error_step h1 s2 (by decide), L1]
    have L3 : fallbackLoop oracle .mistral "mistral-large-latest" 3 =
        ⟨Except.error e2,
          [(.mistral, "mistral-large-latest"), (.mistral, "mistral-medium-latest"),
            (.mistral, "mistral-small-latest")], 2⟩ := by
      rw [show (3 : Nat) = 2 + 1 from rfl, fallbackLoop_error_step h0 s1 (by decide), L2]
    constructor
    · show (fallbackLoop oracle .mistral "mistral-large-latest" 3).trace.length = 3
      rw [L3]
      rfl
    · show (fallbackLoop oracle .mistral "mistral-large-latest" 3).result
        = oracle .mistral "mistral-small-latest"
      rw [L3, h2]
  | gemini =>
    obtain ⟨e0, h0⟩ := hfail "gemini-2.5-flash" (by decide)
    obtain ⟨e1, h1⟩ := hfail "gemini-1.5-flash" (by decide)
    obtain ⟨e2, h2⟩ := hfail "gemini-1.5-pro" (by decide)
    have s1 : getNextFallbackModel .gemini "gemini-2.5-flash"
        = some (.gemini, "gemini-1.5-flash") := by decide
    have s2 : getNextFallbackModel .gemini "gemini-1.5-flash"
        = some (.gemini, "gemini-1.5-pro") := by decide
    have L1 := fallbackLoop_error_last h2
    have L2 : fallbackLoop oracle .gemini "gemini-1.5-flash" 2 =
        ⟨Except.error e2,
          [(.gemini, "gemini-1.5-flash"), (.gemini, "gemini-1.5-pro")], 1⟩ := by
      rw [show (2 : Nat) = 1 + 1 from rfl, fallbackLoop_error_step h1 s2 (by decide), L1]
    have L3 : fallbackLoop oracle .gemini "gemini-2.5-flash" 3 =
        ⟨Except.error e2,
          [(.gemini, "gemini-2.5-flash"), (.gemini, "gemini-1.5-flash"),
            (.gemini, "gemini-1.5-pro")], 2⟩ := by
      rw [show (3 : Nat) = 2 + 1 from rfl, fallbackLoop_error_step h0 s1 (by decide), L2]
    constructor
    · show (fallbackLoop oracle .gemini "gemini-2.5-flash" 3).trace.length = 3
      rw [L3]
      rfl
    · show (fallbackLoop oracle .gemini "gemini-2.5-flash" 3).result
        = oracle .gemini "gemini-1.5-pro"
      rw [L3, h2]

theorem fallback_allFail_from_head_exhausts_catalog_witness :
    (callAIProviderWithFallback (fun _ _ => Except.error "down")
        ⟨"key", .gemini, (AVAILABLE_MODELS AIProvider.gemini).headD ""⟩).trace.length
        = (AVAILABLE_MODELS AIProvider.gemini).length ∧
    (callAIProviderWithFallback (fun _ _ => Except.error "down")
        ⟨"key", .gemini, (AVAILABLE_MODELS AIProvider.gemini).headD ""⟩).result
        = (fun (_ : AIProvider) (_ : String) => (Except.error "down" : Except String String))
            AIProvider.gemini ((AVAILABLE_MODELS AIProvider.gemini).getLastD "") :=
  fallback_allFail_from_head_exhausts_catalog (fun _ _ => Except.error "down")
    AIProvider.gemini "key" (fun _ _ => ⟨"down", rfl⟩)

/-- C10: a selection containing "mistral" but none of "mistral-small",
"mistral-medium", "mistral-large" resolves to "mistral-small-latest" — the
LAST entry of the mistral catalog — which has no next fallback model, so a
single failing call exhausts the fallback sequence. -/
theorem mistral_generic_selection_no_fallback
    (oracle : AIProvider → String → Except String String) (s key e : String)
    (h1 : jsIncludes (jsToLower s) "mistral" = true)
    (h2 : jsIncludes (jsToLower s) "mistral-small" = false)
    (h3 : jsIncludes (jsToLower s) "mistral-medium" = false)
    (h4 : jsIncludes (jsToLower s) "mistral-large" = false)
    (he : oracle .mistral "mistral-small-latest" = Except.error e) :
    getModelFromSelection s = "mistral-small-latest" ∧
    (AVAILABLE_MODELS AIProvider.mistral).getLastD "" = "mistral-small-latest" ∧
    getNextFallbackModel .mistral "mistral-small-latest" = none ∧
    callAIProviderWithFallback oracle ⟨key, .mistral, getModelFromSelection s⟩ =
      ⟨Except.error e, [(.mistral, "mistral-small-latest")], 0⟩ := by
  have hmodel : getModelFromSelection s = "mistral-small-latest" := by
    simp [getModelFromSelection, h1, h2, h3, h4]
  refine ⟨hmodel, rfl, by decide, ?_⟩
  rw [hmodel]
  have hnone : getNextFallbackModel AIProvider.mistral "mistral-small-latest" = none := by
    decide
  show fallbackLoop oracle AIProvider.mistral "mistral-small-latest" 3 = _
  exact fallbackLoop_error_nofb (by decide) he hnone

theorem mistral_generic_selection_no_fallback_witness :
    jsIncludes (jsToLower "My-Mistral-7B") "mistral" = true ∧
    jsIncludes (jsToLower "My-Mistral-7B") "mistral-small" = false ∧
    getModelFromSelection "My-Mistral-7B" = "mistral-small-latest" ∧
    callAIProviderWithFallback (fun _ _ => Except.error "x")
        ⟨"key", .mistral, getModelFromSelection "My-Mistral-7B"⟩ =
      ⟨Except.error "x", [(.mistral, "mistral-small-latest")], 0⟩ := by
  refine ⟨by decide, by decide, ?_, ?_⟩
  · exact (mistral_generic_selection_no_fallback (fun _ _ => Except.error "x")
      "My-Mistral-7B" "key" "x" (by decide) (by decide) (by decide) (by decide) rfl).1
  · exact (mistral_generic_selection_no_fallback (fun _ _ => Except.error "x")
      "My-Mistral-7B" "key" "x" (by decide) (by decide) (by decide) (by decide) rfl).2.2.2

/-! ### Substring occurrence and case-insensitive matching -/

lemma startsWithList_iff (pat s : List Char) :
    startsWithList s pat = true ↔ ∃ v, s = pat ++ v := by
  induction pat generalizing s with
  | nil => simp [startsWithList]
  | cons b p ih =>
    cases s with
    | nil => simp [startsWithList]
    | cons a s' =>
      simp only [startsWithList, Bool.and_eq_true, beq_iff_eq, ih, List.cons_append,
        List.cons.injEq]
      constructor
      · rintro ⟨hab, v, hv⟩
        exact ⟨v, hab, hv⟩
      · rintro ⟨v, hab, hv⟩
        exact ⟨hab, v, hv⟩

lemma listContains_iff (s pat : List Char) :
    listContains s pat = true ↔ ∃ u v, s = u ++ pat ++ v := by
  induction s with
  | nil =>
    simp only [listContains, startsWithList_iff]
    constructor
    · rintro ⟨v, hv⟩
      exact ⟨[], v, by simp [hv]⟩
    · rintro ⟨u, v, huv⟩
      have hu : u = [] ∧ pat ++ v = [] := by
        have := huv.symm
        rw [List.append_assoc] at this
        exact List.append_eq_nil.mp this
      exact ⟨v, by simp [hu.2]⟩
  | cons a s' ih =>
    simp only [listContains, Bool.or_eq_true, startsWithList_iff, ih]
    constructor
    · rintro (⟨v, hv⟩ | ⟨u, v, huv⟩)
      · exact ⟨[], v, by simp [hv]⟩
      · exact ⟨a :: u, v, by simp [huv]⟩
    · rintro ⟨u, v, huv⟩
      cases u with
      | nil =>
        left
        exact ⟨v, by simpa using huv⟩
      | cons b u' =>
        right
        simp only [List.cons_append, List.cons.injEq] at huv
        exact ⟨u', v, huv.2⟩

lemma map_eq_append_decomp {α β : Type} {f : α → β} {l : List α} {s1 s2 : List β}
    (h : l.map f = s1 ++ s2) :
    ∃ l1 l2, l = l1 ++ l2 ∧ l1.map f = s1 ∧ l2.map f = s2 := by
  induction l generalizing s1 with
  | nil =>
    have := List.append_eq_nil.mp h.symm
    exact ⟨[], [], by simp, by simp [this.1.symm], by simp [this.2.symm]⟩
  | cons a t ih =>
    cases s1 with
    | nil =>
      exact ⟨[], a :: t, by simp, rfl, by simpa using h⟩
    | cons b s1' =>
      simp only [List.map_cons, List.cons_append, List.cons.injEq] at h
      obtain ⟨l1, l2, hl, h1, h2⟩ := ih h.2
      exact ⟨a :: l1, l2, by simp [hl], by simp [h.1, h1], h2⟩

/-- `occursAnyCase` is exactly what the code's
`modelSelection.toLowerCase().includes(pat)` tests. -/
lemma occursAnyCase_iff (s pat : String) :
    occursAnyCase s pat ↔ jsIncludes (jsToLower s) pat = true := by
  unfold occursAnyCase jsIncludes jsToLower
  rw [listContains_iff]
  constructor
  · rintro ⟨u, t, v, hs, ht⟩
    refine ⟨u.map Char.toLower, v.map Char.toLower, ?_⟩
    show (String.mk (s.data.map Char.toLower)).data = _
    rw [hs]
    simp [ht]
  · rintro ⟨u, v, huv⟩
    have huv' : s.data.map Char.toLower = u ++ (pat.data ++ v) := by
      simpa [List.append_assoc] using huv
    obtain ⟨l1, l23, hl, h1, h23⟩ := map_eq_append_decomp huv'
    obtain ⟨l2, l3, hl2, h2, h3⟩ := map_eq_append_decomp h23
    exact ⟨l1, l2, l3, by simp [hl, hl2], h2⟩

lemma not_occurs_includes_false {s pat : String} (h : ¬ occursAnyCase s pat) :
    jsIncludes (jsToLower s) pat = false := by
  cases hq : jsIncludes (jsToLower s) pat
  · rfl
  · exact absurd ((occursAnyCase_iff s pat).mpr hq) h

/-- C4 (counterexample): "gemini mistral" contains the canonical name
"gemini", yet the resolver returns `mistral` (the mistral check runs
first), so the claim fails as universally stated. -/
theorem getProviderFromModel_both_names_cex :
    occursAnyCase "gemini mistral" "gemini" ∧
    getProviderFromModel "gemini mistral" = some AIProvider.mistral ∧
    getProviderFromModel "gemini mistral" ≠ some AIProvider.gemini :=
  ⟨⟨[], "gemini".data, " mistral".data, by decide, by decide⟩, by decide, by decide⟩

/-- C4 (amended): a string containing "mistral" in any case resolves to
`mistral`; one containing "gemini" or "google" in any case but NOT "mistral"
resolves to `gemini`; a string containing none of "mistral", "gemini",
"google" resolves to `none`. -/
theorem getProviderFromModel_characterization (s : String) :
    (occursAnyCase s "mistral" → getProviderFromModel s = some AIProvider.mistral) ∧
    (occursAnyCase s "gemini" ∨ occursAnyCase s "google" → ¬ occursAnyCase s "mistral" →
        getProviderFromModel s = some AIProvider.gemini) ∧
    (¬ occursAnyCase s "mistral" → ¬ occursAnyCase s "gemini" → ¬ occursAnyCase s "google" →
        getProviderFromModel s = none) := by
  refine ⟨?_, ?_, ?_⟩
  · intro h
    simp [getProviderFromModel, (occursAnyCase_iff s "mistral").mp h]
  · intro hor hnm
    have hm := not_occurs_includes_false hnm
    rcases hor with h | h
    · simp [getProviderFromModel, hm, (occursAnyCase_iff s "gemini").mp h]
    · simp [getProviderFromModel, hm, (occursAnyCase_iff s "google").mp h]
  · intro h1 h2 h3
    simp [getProviderFromModel, not_occurs_includes_false h1,
      not_occurs_includes_false h2, not_occurs_includes_false h3]

theorem getProviderFromModel_characterization_witness :
    getProviderFromModel "Use GEMINI please" = some AIProvider.gemini :=
  (getProviderFromModel_characterization "Use GEMINI please").2.1
    (Or.inl ⟨"Use ".data, "GEMINI".data, " please".data, by decide, by decide⟩)
    (fun h => absurd ((occursAnyCase_iff "Use GEMINI please" "mistral").mp h) (by decide))

/-- C7: `getModelFromSelection` is exactly the ordered-substring-rule
resolver of the spec, and on a selection matching none of the rules it
returns the input unchanged (pass-through default). -/
theorem getModelFromSelection_spec_refinement (s : String) :
    getModelFromSelection s = resolveModelSpec s ∧
    ((∀ r ∈ modelRules, ¬ occursAnyCase s r.1) → getModelFromSelection s = s) := by
  constructor
  · by_cases h1 : jsIncludes (jsToLower s) "mistral-small"
    · simp [getModelFromSelection, resolveModelSpec, modelRules, List.find?, h1]
    · by_cases h2 : jsIncludes (jsToLower s) "mistral-medium"
      · simp [getModelFromSelection, resolveModelSpec, modelRules, List.find?, h1, h2]
      · by_cases h3 : jsIncludes (jsToLower s) "mistral-large"
        · simp [getModelFromSelection, resolveModelSpec, modelRules, List.find?, h1, h2, h3]
        · by_cases h4 : jsIncludes (jsToLower s) "mistral"
          · simp [getModelFromSelection, resolveModelSpec, modelRules, List.find?,
              h1, h2, h3, h4]
          · by_cases h5 : jsIncludes (jsToLower s) "gemini"
            · simp [getModelFromSelection, resolveModelSpec, modelRules, List.find?,
                h1, h2, h3, h4, h5]
            · by_cases h6 : jsIncludes (jsToLower s) "google"
              · simp [getModelFromSelection, resolveModelSpec, modelRules, List.find?,
                  h1, h2, h3, h4, h5, h6]
              · simp [getModelFromSelection, resolveModelSpec, modelRules, List.find?,
                  h1, h2, h3, h4, h5, h6]
  · intro hnone
    have f1 := not_occurs_includes_false (hnone ("mistral-small", "mistral-small-latest")
      (by simp [modelRules]))
    have f2 := not_occurs_includes_false (hnone ("mistral-medium", "mistral-medium-latest")
      (by simp [modelRules]))
    have f3 := not_occurs_includes_false (hnone ("mistral-large", "mistral-large-latest")
      (by simp [modelRules]))
    have f4 := not_occurs_includes_false (hnone ("mistral", "mistral-small-latest")
      (by simp [modelRules]))
    have f5 := not_occurs_includes_false (hnone ("gemini", "gemini-2.5-flash")
      (by simp [modelRules]))
    have f6 := not_occurs_includes_false (hnone ("google", "gemini-2.5-flash")
      (by simp [modelRules]))
    simp [getModelFromSelection, f1, f2, f3, f4, f5, f6]

theorem getModelFromSelection_spec_refinement_witness :
    getModelFromSelection "claude-3-opus" = "claude-3-opus" := by
  refine (getModelFromSelection_spec_refinement "claude-3-opus").2 ?_
  intro r hr hocc
  have hinc := (occursAnyCase_iff "claude-3-opus" r.1).mp hocc
  simp only [modelRules] at hr
  fin_cases hr <;> exact absurd hinc (by decide)

/-- C8: a blank Gemini response is never returned as success, and the three
empty-result causes surface as three pairwise-distinct error kinds:
token-limit (`MAX_TOKENS`), safety filter (`SAFETY`), and genuine empty
payload. -/
theorem gemini_empty_response_error_kinds (text finishReason : Option String) :
    (jsBlank text = true → finishReason = some "MAX_TOKENS" →
        geminiEmptyCheck text finishReason = Except.error maxTokensMsg) ∧
    (jsBlank text = true → finishReason = some "SAFETY" →
        geminiEmptyCheck text finishReason = Except.error safetyMsg) ∧
    (jsBlank text = true → finishReason ≠ some "MAX_TOKENS" → finishReason ≠ some "SAFETY" →
        geminiEmptyCheck text finishReason = Except.error emptyMsg) ∧
    (maxTokensMsg ≠ safetyMsg ∧ maxTokensMsg ≠ emptyMsg ∧ safetyMsg ≠ emptyMsg) ∧
    (∀ t, geminiEmptyCheck text finishReason = Except.ok t → jsBlank (some t) = false) := by
  refine ⟨?_, ?_, ?_, ⟨by decide, by decide, by decide⟩, ?_⟩
  · intro hb hf
    subst hf
    simp [geminiEmptyCheck, hb]
  · intro hb hf
    subst hf
    simp [geminiEmptyCheck, hb, safetyMsg, maxTokensMsg]
  · intro hb hf1 hf2
    simp [geminiEmptyCheck, hb, hf1, hf2]
  · intro t hok
    by_cases hb : jsBlank text = true
    · by_cases h1 : finishReason == some "MAX_TOKENS"
      · simp [geminiEmptyCheck, hb, h1] at hok
      · by_cases h2 : finishReason == some "SAFETY"
        · simp [geminiEmptyCheck, hb, h1, h2] at hok
        · simp [geminiEmptyCheck, hb, h1, h2] at hok
    · cases text with
      | none => simp [jsBlank] at hb
      | some t' =>
        simp [geminiEmptyCheck, hb] at hok
        subst hok
        simpa [jsBlank] using hb

theorem gemini_empty_response_error_kinds_witness :
    geminiEmptyCheck (some "   ") (some "MAX_TOKENS") = Except.error maxTokensMsg ∧
    geminiEmptyCheck none (some "SAFETY") = Except.error safetyMsg ∧
    geminiEmptyCheck (some "") none = Except.error emptyMsg :=
  ⟨(gemini_empty_response_error_kinds (some "   ") (some "MAX_TOKENS")).1 (by decide) rfl,
   (gemini_empty_response_error_kinds none (some "SAFETY")).2.1 (by decide) rfl,
   (gemini_empty_response_error_kinds (some "") none).2.2.1 (by decide)
     (by decide) (by decide)⟩

/-! ### Locating the extractor's span -/

lemma jsIndexOf_cons_ne {α : Type} [DecidableEq α] {a x : α} (r : List α)
    (hax : a ≠ x) (hne : jsIndexOf r x ≠ -1) :
    jsIndexOf (a :: r) x = jsIndexOf r x + 1 := by
  simp only [jsIndexOf, if_neg hax, if_neg hne]

lemma jsIndexOf_append_head {u w : List Char} {c : Char} (hu : c ∉ u) :
    jsIndexOf (u ++ c :: w) c = (u.length : Int) := by
  induction u with
  | nil => simp [jsIndexOf]
  | cons a u' ih =>
    have hac : a ≠ c := fun h => hu (h ▸ List.mem_cons_self a u')
    have hu' : c ∉ u' := fun h => hu (List.mem_cons_of_mem a h)
    have hrec := ih hu'
    have hne : jsIndexOf (u' ++ c :: w) c ≠ -1 := by
      rw [hrec]; omega
    rw [List.cons_append, jsIndexOf_cons_ne _ hac hne, hrec, List.length_cons]
    push_cast
    ring

lemma jsLastIndexOf_append_last {u w : List Char} {d : Char} (hw : d ∉ w) :
    jsLastIndexOf (u ++ d :: w) d = (u.length : Int) := by
  have hrev : (u ++ d :: w).reverse = w.reverse ++ d :: u.reverse := by
    simp
  have hwrev : d ∉ w.reverse := fun h => hw (List.mem_reverse.mp h)
  have hidx : jsIndexOf (u ++ d :: w).reverse d = (w.length : Int) := by
    rw [hrev, jsIndexOf_append_head hwrev]
    simp
  have hne : jsIndexOf (u ++ d :: w).reverse d ≠ -1 := by
    rw [hidx]; omega
  simp only [jsLastIndexOf, if_neg hne, hidx, List.length_append, List.length_cons]
  push_cast
  ring

lemma jsSubstringList_middle (u sp v : List Char) :
    jsSubstringList (u ++ sp ++ v) u.length (u.length + sp.length) = sp := by
  unfold jsSubstringList
  rw [List.append_assoc, List.take_append_eq_append_take,
    List.take_of_length_le (by omega), List.take_append_eq_append_take,
    List.take_of_length_le (by omega)]
  have h1 : u.length + sp.length - u.length - sp.length = 0 := by omega
  rw [h1, List.take_zero, List.append_nil, List.drop_left]

/-- The span located by `extractJSONArray`'s index arithmetic, for any
decomposition whose middle part starts with the opening character `c`
(absent from the part before) and ends with the closing character `d`
(absent from the part after). -/
lemma span_locate {u sp v : List Char} {c d : Char}
    (hu : c ∉ u) (hv : d ∉ v)
    (sp1 : List Char) (hh : sp = c :: sp1)
    (sp2 : List Char) (hl : sp = sp2 ++ [d]) :
    jsIndexOf (u ++ sp ++ v) c = (u.length : Int) ∧
    jsLastIndexOf (u ++ sp ++ v) d = (u.length : Int) + sp.length - 1 ∧
    jsSubstringList (u ++ sp ++ v) u.length (u.length + sp.length) = sp := by
  refine ⟨?_, ?_, jsSubstringList_middle u sp v⟩
  · have : u ++ sp ++ v = u ++ c :: (sp1 ++ v) := by
      rw [hh]; simp
    rw [this, jsIndexOf_append_head hu]
  · have : u ++ sp ++ v = (u ++ sp2) ++ d :: v := by
      rw [hl]; simp
    rw [this, jsLastIndexOf_append_last hv]
    have hsp : sp.length = sp2.length + 1 := by rw [hl]; simp
    rw [List.length_append, hsp]
    push_cast
    ring

lemma jsIndexOf_getElem {t : List Char} {c : Char} (h : jsIndexOf t c ≠ -1) :
    t[(jsIndexOf t c).toNat]? = some c := by
  induction t with
  | nil => simp [jsIndexOf] at h
  | cons a r ih =>
    by_cases hac : a = c
    · subst hac
      simp [jsIndexOf]
    · have hne : jsIndexOf r c ≠ -1 := by
        intro hc
        rw [jsIndexOf, if_neg hac] at h
        simp only [hc] at h
        exact h rfl
      have hge := jsIndexOf_ge_neg_one r c
      have htn : (jsIndexOf r c + 1).toNat = (jsIndexOf r c).toNat + 1 := by omega
      rw [jsIndexOf, if_neg hac]
      simp only [if_neg hne, htn, List.getElem?_cons_succ]
      exact ih hne

lemma jsLastIndexOf_getElem {t : List Char} {d : Char} (h : jsLastIndexOf t d ≠ -1) :
    t[(jsLastIndexOf t d).toNat]? = some d := by
  have hj : jsIndexOf t.reverse d ≠ -1 := by
    intro hc
    unfold jsLastIndexOf at h
    rw [if_pos hc] at h
    exact h rfl
  have hge := jsIndexOf_ge_neg_one t.reverse d
  have hlt := jsIndexOf_lt_length t.reverse d
  rw [List.length_reverse] at hlt
  have hrev := jsIndexOf_getElem hj
  have hval : jsLastIndexOf t d = (t.length : Int) - 1 - jsIndexOf t.reverse d := by
    unfold jsLastIndexOf
    rw [if_neg hj]
  have hidx : (jsLastIndexOf t d).toNat = t.length - 1 - (jsIndexOf t.reverse d).toNat := by
    omega
  rw [hidx]
  rw [List.getElem?_reverse (by omega)] at hrev
  exact hrev

lemma index_pair_of_conditions {t : List Char} {c d : Char}
    (h1 : jsIndexOf t c ≠ -1) (h2 : jsLastIndexOf t d ≠ -1)
    (h3 : jsIndexOf t c ≤ jsLastIndexOf t d) :
    ∃ i j : Nat, i ≤ j ∧ t[i]? = some c ∧ t[j]? = some d := by
  have g1 := jsIndexOf_ge_neg_one t c
  refine ⟨(jsIndexOf t c).toNat, (jsLastIndexOf t d).toNat, by omega,
    jsIndexOf_getElem h1, jsLastIndexOf_getElem h2⟩

lemma strict_index_pair_of_conditions {t : List Char} {c d : Char}
    (h1 : jsIndexOf t c ≠ -1) (h2 : jsLastIndexOf t d ≠ -1)
    (h3 : jsIndexOf t c < jsLastIndexOf t d) :
    ∃ i j : Nat, i < j ∧ t[i]? = some c ∧ t[j]? = some d := by
  have g1 := jsIndexOf_ge_neg_one t c
  refine ⟨(jsIndexOf t c).toNat, (jsLastIndexOf t d).toNat, by omega,
    jsIndexOf_getElem h1, jsLastIndexOf_getElem h2⟩

/-! ### Characterizing `extractJSONArray` -/

lemma extract_bracket_span {raw : String} {u sp v : List Char}
    (ht : jsTrimList raw.data = u ++ sp ++ v)
    (hu : '[' ∉ u) (hv : ']' ∉ v)
    (sp1 : List Char) (hh : sp = '[' :: sp1)
    (sp2 : List Char) (hl : sp = sp2 ++ [']']) :
    extractJSONArray raw =
      match jsonParse (String.mk sp) with
      | some x => Except.ok x
      | none => Except.error "Failed to parse JSON array from response" := by
  obtain ⟨hfb, hlb, hsub⟩ := span_locate hu hv sp1 hh sp2 hl
  have hsplen : 1 ≤ sp.length := by rw [hh]; simp
  have hcond : ¬(jsIndexOf (u ++ sp ++ v) '[' = -1 ∨
      jsLastIndexOf (u ++ sp ++ v) ']' = -1 ∨
      jsLastIndexOf (u ++ sp ++ v) ']' < jsIndexOf (u ++ sp ++ v) '[') := by
    rw [hfb, hlb]
    omega
  have htn1 : (jsIndexOf (u ++ sp ++ v) '[').toNat = u.length := by
    rw [hfb]; omega
  have htn2 : (jsLastIndexOf (u ++ sp ++ v) ']').toNat + 1 = u.length + sp.length := by
    rw [hlb]; omega
  simp only [extractJSONArray, ht, if_neg hcond, htn1, htn2, hsub]

lemma extract_brace_span {raw : String} {u sp v : List Char}
    (hnb : ¬ ∃ i j : Nat, i ≤ j ∧ (jsTrimList raw.data)[i]? = some '[' ∧
        (jsTrimList raw.data)[j]? = some ']')
    (ht : jsTrimList raw.data = u ++ sp ++ v)
    (hu : '\x7b' ∉ u) (hv : '\x7d' ∉ v)
    (sp1 : List Char) (hh : sp = '\x7b' :: sp1)
    (sp2 : List Char) (hl : sp = sp2 ++ ['\x7d']) :
    extractJSONArray raw =
      match jsonParse (String.mk sp) with
      | some x => Except.ok (Json.arr [x])
      | none => Except.error "Failed to parse JSON object from response" := by
  obtain ⟨hfb, hlb, hsub⟩ := span_locate hu hv sp1 hh sp2 hl
  have hsp2 : 2 ≤ sp.length := by
    cases sp1 with
    | nil =>
      exfalso
      rw [hh] at hl
      have hlen := congrArg List.length hl
      simp at hlen
      rw [hlen] at hl
      exact absurd hl (by decide)
    | cons b s1 =>
      rw [hh]
      simp
  have hbc : jsIndexOf (jsTrimList raw.data) '[' = -1 ∨
      jsLastIndexOf (jsTrimList raw.data) ']' = -1 ∨
      jsLastIndexOf (jsTrimList raw.data) ']' < jsIndexOf (jsTrimList raw.data) '[' := by
    by_contra hc
    push_neg at hc
    exact hnb (index_pair_of_conditions hc.1 hc.2.1 hc.2.2)
  rw [ht] at hbc
  have hcond2 : jsIndexOf (u ++ sp ++ v) '\x7b' ≠ -1 ∧
      jsLastIndexOf (u ++ sp ++ v) '\x7d' ≠ -1 ∧
      jsLastIndexOf (u ++ sp ++ v) '\x7d' > jsIndexOf (u ++ sp ++ v) '\x7b' := by
    rw [hfb, hlb]
    refine ⟨by omega, by omega, by omega⟩
  have htn1 : (jsIndexOf (u ++ sp ++ v) '\x7b').toNat = u.length := by
    rw [hfb]; omega
  have htn2 : (jsLastIndexOf (u ++ sp ++ v) '\x7d').toNat + 1 = u.length + sp.length := by
    rw [hlb]; omega
  simp only [extractJSONArray, ht, if_pos hbc, if_pos hcond2, htn1, htn2, hsub]

lemma extract_no_span {raw : String}
    (hnb : ¬ ∃ i j : Nat, i ≤ j ∧ (jsTrimList raw.data)[i]? = some '[' ∧
        (jsTrimList raw.data)[j]? = some ']')
    (hnB : ¬ ∃ i j : Nat, i < j ∧ (jsTrimList raw.data)[i]? = some '\x7b' ∧
        (jsTrimList raw.data)[j]? = some '\x7d') :
    extractJSONArray raw =
      Except.error "Invalid response format: No JSON array or object found" := by
  have hbc : jsIndexOf (jsTrimList raw.data) '[' = -1 ∨
      jsLastIndexOf (jsTrimList raw.data) ']' = -1 ∨
      jsLastIndexOf (jsTrimList raw.data) ']' < jsIndexOf (jsTrimList raw.data) '[' := by
    by_contra hc
    push_neg at hc
    exact hnb (index_pair_of_conditions hc.1 hc.2.1 hc.2.2)
  have hBc : ¬(jsIndexOf (jsTrimList raw.data) '\x7b' ≠ -1 ∧
      jsLastIndexOf (jsTrimList raw.data) '\x7d' ≠ -1 ∧
      jsLastIndexOf (jsTrimList raw.data) '\x7d' > jsIndexOf (jsTrimList raw.data) '\x7b') := by
    intro hc
    exact hnB (strict_index_pair_of_conditions hc.1 hc.2.1 hc.2.2)
  simp only [extractJSONArray, if_pos hbc, if_neg hBc]

lemma dropWhile_ws_append {c : Char} (hc : isWsChar c = false) (p A1 q : List Char) :
    (p ++ (c :: A1) ++ q).dropWhile isWsChar = p.dropWhile isWsChar ++ (c :: A1) ++ q := by
  induction p with
  | nil =>
    simp only [List.nil_append, List.cons_append, List.dropWhile_cons, hc]
    simp
  | cons a p' ih =>
    by_cases ha : isWsChar a
    · simp only [List.cons_append, List.dropWhile_cons, ha, if_true]
      simpa using ih
    · simp only [List.cons_append, List.dropWhile_cons, ha, if_false]
      simp only [Bool.false_eq_true, if_false]
      simp

lemma jsTrimList_decomp {cH cL : Char} {A : List Char}
    (hH : isWsChar cH = false) (hL : isWsChar cL = false)
    (A1 A2 : List Char) (hh : A = cH :: A1) (hl : A = A2 ++ [cL]) (p q : List Char) :
    jsTrimList (p ++ A ++ q) =
      p.dropWhile isWsChar ++ A ++ (q.reverse.dropWhile isWsChar).reverse := by
  unfold jsTrimList
  have step1 : (p ++ A ++ q).dropWhile isWsChar = p.dropWhile isWsChar ++ A ++ q := by
    rw [hh]
    exact dropWhile_ws_append hH p A1 q
  rw [step1]
  have hrev : (p.dropWhile isWsChar ++ A ++ q).reverse
      = q.reverse ++ (cL :: A2.reverse) ++ (p.dropWhile isWsChar).reverse := by
    rw [hl]
    simp
  rw [hrev, dropWhile_ws_append hL (q.reverse) (A2.reverse) ((p.dropWhile isWsChar).reverse)]
  rw [hl]
  simp

/-- C3 (counterexample): for arbitrary surrounding prose the round-trip
fails: with prose "see [" before the well-formed array "[1]", the extractor
takes the span from the prose's '[' and fails to parse, while `JSON.parse`
on the isolated array succeeds. -/
theorem extractJSONArray_prose_bracket_cex :
    jsonParse "[1]" = some (Json.arr [Json.num "1"]) ∧
    "see [" ++ "[1]" ++ "" = "see [[1]" ∧
    extractJSONArray ("see [" ++ "[1]" ++ "") =
      Except.error "Failed to parse JSON array from response" :=
  ⟨rfl, rfl, rfl⟩

/-- C3 (amended): a well-formed JSON array `A` (beginning with '[' and
ending with ']'), embedded between prose `p` containing no '[' and prose
`q` containing no ']', is recovered exactly: the extractor returns
precisely the value `JSON.parse` gives on the isolated span `A`. -/
theorem extractJSONArray_roundtrip (p A q : String) (l : List Json)
    (hp : '[' ∉ p.data) (hq : ']' ∉ q.data)
    (hh : A.data.head? = some '[') (hl : A.data.getLast? = some ']')
    (hparse : jsonParse A = some (Json.arr l)) :
    extractJSONArray (p ++ A ++ q) = Except.ok (Json.arr l) := by
  obtain ⟨A1, hA1⟩ : ∃ A1, A.data = '[' :: A1 := by
    cases hAd : A.data with
    | nil => rw [hAd] at hh; simp at hh
    | cons c r =>
      rw [hAd] at hh
      simp only [List.head?_cons, Option.some.injEq] at hh
      exact ⟨r, by rw [hh]⟩
  obtain ⟨A2, hA2⟩ : ∃ A2, A.data = A2 ++ [']'] := by
    rw [List.getLast?_eq_head?_reverse] at hl
    cases hAr : A.data.reverse with
    | nil => rw [hAr] at hl; simp at hl
    | cons c r =>
      rw [hAr] at hl
      simp only [List.head?_cons, Option.some.injEq] at hl
      refine ⟨r.reverse, ?_⟩
      have h2 := congrArg List.reverse hAr
      rw [List.reverse_reverse] at h2
      rw [h2, hl]
      simp
  have hdata : (p ++ A ++ q).data = p.data ++ A.data ++ q.data := by
    rw [String.data_append, String.data_append]
  have hsplit : jsTrimList ((p ++ A ++ q).data) =
      p.data.dropWhile isWsChar ++ A.data ++ (q.data.reverse.dropWhile isWsChar).reverse := by
    rw [hdata]
    exact jsTrimList_decomp (by decide) (by decide) A1 A2 hA1 hA2 p.data q.data
  have hu : '[' ∉ p.data.dropWhile isWsChar :=
    fun h => hp ((List.dropWhile_sublist isWsChar).subset h)
  have hv : ']' ∉ (q.data.reverse.dropWhile isWsChar).reverse := by
    intro h
    have h2 : ']' ∈ q.data.reverse.dropWhile isWsChar := List.mem_reverse.mp h
    have h3 : ']' ∈ q.data.reverse := (List.dropWhile_sublist isWsChar).subset h2
    exact hq (List.mem_reverse.mp h3)
  have hmain := extract_bracket_span hsplit hu hv A1 hA1 A2 hA2
  rw [hmain]
  have hAeta : String.mk A.data = A := rfl
  rw [hAeta, hparse]

theorem extractJSONArray_roundtrip_witness :
    extractJSONArray ("Here is the JSON: " ++ "[ \x7b\"a\":1\x7d ]" ++ " Thanks!") =
      Except.ok (Json.arr [Json.obj [("a", Json.num "1")]]) :=
  extractJSONArray_roundtrip "Here is the JSON: " "[ \x7b\"a\":1\x7d ]" " Thanks!"
    [Json.obj [("a", Json.num "1")]]
    (by decide) (by decide) (by decide) (by decide) rfl

/-- C5: the extractor's policy.  On the trimmed input: (a) with no
`'['`-before-`']'` pair and no `'\x7b'`-strictly-before-`'\x7d'` pair it
fails with the no-JSON-found parse error; (b) with a bracket span (first
'[' to last ']') it returns exactly the result of parsing that span as
JSON, failing with a parse error iff the span fails to parse; (c) with no
bracket pair but a brace span (first '\x7b' to last '\x7d') it returns the
single parsed object wrapped in a one-element array, failing with a parse
error iff that span fails to parse; (d) in particular the input
`\x7b"a":1\x7d` yields the one-element sequence holding the object, and
"no json here" fails. -/
theorem extractJSONArray_policy (raw : String) :
    ((¬ ∃ i j : Nat, i ≤ j ∧ (jsTrimList raw.data)[i]? = some '[' ∧
        (jsTrimList raw.data)[j]? = some ']') →
      (¬ ∃ i j : Nat, i < j ∧ (jsTrimList raw.data)[i]? = some '\x7b' ∧
        (jsTrimList raw.data)[j]? = some '\x7d') →
      extractJSONArray raw =
        Except.error "Invalid response format: No JSON array or object found") ∧
    (∀ u sp v : List Char, jsTrimList raw.data = u ++ sp ++ v →
      '[' ∉ u → ']' ∉ v →
      (∃ sp1, sp = '[' :: sp1) → (∃ sp2, sp = sp2 ++ [']']) →
      extractJSONArray raw =
        match jsonParse (String.mk sp) with
        | some x => Except.ok x
        | none => Except.error "Failed to parse JSON array from response") ∧
    ((¬ ∃ i j : Nat, i ≤ j ∧ (jsTrimList raw.data)[i]? = some '[' ∧
        (jsTrimList raw.data)[j]? = some ']') →
      ∀ u sp v : List Char, jsTrimList raw.data = u ++ sp ++ v →
      '\x7b' ∉ u → '\x7d' ∉ v →
      (∃ sp1, sp = '\x7b' :: sp1) → (∃ sp2, sp = sp2 ++ ['\x7d']) →
      extractJSONArray raw =
        match jsonParse (String.mk sp) with
        | some x => Except.ok (Json.arr [x])
        | none => Except.error "Failed to parse JSON object from response") ∧
    extractJSONArray "\x7b\"a\":1\x7d" =
      Except.ok (Json.arr [Json.obj [("a", Json.num "1")]]) ∧
    extractJSONArray "no json here" =
      Except.error "Invalid response format: No JSON array or object found" := by
  refine ⟨?_, ?_, ?_, rfl, rfl⟩
  · intro hnb hnB
    exact extract_no_span hnb hnB
  · rintro u sp v ht hu hv ⟨sp1, hh⟩ ⟨sp2, hl⟩
    exact extract_bracket_span ht hu hv sp1 hh sp2 hl
  · rintro hnb u sp v ht hu hv ⟨sp1, hh⟩ ⟨sp2, hl⟩
    exact extract_brace_span hnb ht hu hv sp1 hh sp2 hl

theorem extractJSONArray_policy_witness :
    extractJSONArray "hello world." =
      Except.error "Invalid response format: No JSON array or object found" ∧
    extractJSONArray "prefix text [ \x7b\"a\":1\x7d ] suffix" =
      Except.ok (Json.arr [Json.obj [("a", Json.num "1")]]) := by
  constructor
  · refine (extractJSONArray_policy "hello world.").1 ?_ ?_
    · rintro ⟨i, j, -, hi, -⟩
      exact absurd (List.getElem?_mem hi) (by decide)
    · rintro ⟨i, j, -, hi, -⟩
      exact absurd (List.getElem?_mem hi) (by decide)
  · have h := (extractJSONArray_policy "prefix text [ \x7b\"a\":1\x7d ] suffix").2.1
      "prefix text ".data "[ \x7b\"a\":1\x7d ]".data " suffix".data
      (by decide) (by decide) (by decide)
      ⟨" \x7b\"a\":1\x7d ]".data, by decide⟩ ⟨"[ \x7b\"a\":1\x7d ".data, by decide⟩
    rw [h]
    rfl
